import Mathlib

/-!
Verification of the MADRS profile generators
(`generate_profiles_borentain.py`, `generate_profiles_hopkins.py`,
`generate_profiles_hopkins_latent.py`, and the clinical-rule checker
`check_profile_violations.py`).

Modelling conventions.
* A MADRS profile is a mapping of the ten items to integer scores.  For the
  hierarchical generator (`HierarchicalMADRSGenerator`) we use a structure
  with one `Nat` field per item, in the order of `self.item_keys`.
  Scores are natural numbers; the source clamps to `max(0, min(6, ...))`,
  so the lower bound 0 is built into the type and the upper clamp is
  explicit.
* The pseudorandom draws (`np.random.multivariate_normal`,
  `np.random.normal`, `np.random.choice`) are modelled as explicit oracle
  arguments: an oracle supplies the clamped initial discrete scores
  (absorbing the latent factor draw, residual noise and `round`), and a
  selection oracle supplies, at each loop step, which element of the
  current candidate list is chosen (absorbing the probability weights and,
  in the adjustment loop, the float arg-max over `continuous - discrete`).
  Every theorem below quantifies over all oracles, hence covers every
  possible draw.
-/

/-- The ten MADRS items, field order following `item_keys` in
`generate_profiles_hopkins_latent.py`. -/
structure Scores where
  reported_sadness : Nat
  apparent_sadness : Nat
  inner_tension : Nat
  reduced_sleep : Nat
  reduced_appetite : Nat
  concentration_difficulties : Nat
  lassitude : Nat
  inability_to_feel : Nat
  pessimistic_thoughts : Nat
  suicidal_thoughts : Nat
deriving DecidableEq, Repr

namespace Scores

/-- Item lookup by position in `item_keys`. -/
def get (s : Scores) : Fin 10 → Nat
  | 0 => s.reported_sadness
  | 1 => s.apparent_sadness
  | 2 => s.inner_tension
  | 3 => s.reduced_sleep
  | 4 => s.reduced_appetite
  | 5 => s.concentration_difficulties
  | 6 => s.lassitude
  | 7 => s.inability_to_feel
  | 8 => s.pessimistic_thoughts
  | 9 => s.suicidal_thoughts

/-- Item update by position in `item_keys`. -/
def set (s : Scores) (i : Fin 10) (v : Nat) : Scores :=
  match i with
  | 0 => { s with reported_sadness := v }
  | 1 => { s with apparent_sadness := v }
  | 2 => { s with inner_tension := v }
  | 3 => { s with reduced_sleep := v }
  | 4 => { s with reduced_appetite := v }
  | 5 => { s with concentration_difficulties := v }
  | 6 => { s with lassitude := v }
  | 7 => { s with inability_to_feel := v }
  | 8 => { s with pessimistic_thoughts := v }
  | 9 => { s with suicidal_thoughts := v }

/-- `sum(discrete.values())`. -/
def total (s : Scores) : Nat :=
  s.reported_sadness + s.apparent_sadness + s.inner_tension +
  s.reduced_sleep + s.reduced_appetite + s.concentration_difficulties +
  s.lassitude + s.inability_to_feel + s.pessimistic_thoughts +
  s.suicidal_thoughts

/-- All ten items lie in the MADRS range `[0,6]` (the lower bound is the
`Nat` type). -/
def InRange (s : Scores) : Prop := ∀ i : Fin 10, s.get i ≤ 6

instance : DecidablePred InRange := fun s =>
  inferInstanceAs (Decidable (∀ i : Fin 10, s.get i ≤ 6))

end Scores

/-- First block of `_apply_madrs_rules`: the Core Mood Gate
(`generate_profiles_hopkins_latent.py`, lines 57-62).  Note the source
sets `SUICIDAL_THOUGHTS` to `1` (not `2`) when it exceeds 2. -/
def moodGate (s : Scores) : Scores :=
  if s.reported_sadness ≤ 1 then
    let s1 := if 2 < s.suicidal_thoughts then { s with suicidal_thoughts := 1 } else s
    if 2 < s1.pessimistic_thoughts then { s1 with pessimistic_thoughts := 2 } else s1
  else s

/-- Second block of `_apply_madrs_rules`: the Anhedonia Link
(lines 64-66). -/
def anhedoniaLink (s : Scores) : Scores :=
  if 4 ≤ s.inability_to_feel ∧ s.reported_sadness < 2 then
    { s with reported_sadness := 3 }
  else s

/-- Third block of `_apply_madrs_rules`: the Tension and Sleep Link
(lines 68-70). -/
def tensionSleepLink (s : Scores) : Scores :=
  if 4 ≤ s.inner_tension ∧ s.reduced_sleep = 0 then
    { s with reduced_sleep := 2 }
  else s

/-- `HierarchicalMADRSGenerator._apply_madrs_rules` (lines 54-72): the three
blocks run in sequence on the mutable dict.  The guard
`"REPORTED_SADNESS" in scores` is always true for the full ten-item
mappings built by `generate_profile`, so it is not modelled. -/
def apply_madrs_rules (s : Scores) : Scores :=
  tensionSleepLink (anhedoniaLink (moodGate s))

/-- The clinical plausibility predicate of
`check_profile_violations.check_clinical_rules` (lines 119-168): a profile
has no clinical violations. -/
def clinicalRulesOk (s : Scores) : Prop :=
  (s.reported_sadness ≤ 1 → s.suicidal_thoughts ≤ 2 ∧ s.pessimistic_thoughts ≤ 2) ∧
  (4 ≤ s.inability_to_feel → 2 ≤ s.reported_sadness) ∧
  (4 ≤ s.inner_tension → 0 < s.reduced_sleep)

instance : DecidablePred clinicalRulesOk := fun s => by
  unfold clinicalRulesOk; infer_instance

/-!  The capacity-aware point-distribution loop shared (verbatim in
structure) by `generate_from_matrix` (`generate_profiles_borentain.py`,
lines 25-36) and `FactorBasedMADRSGenerator.generate`
(`generate_profiles_hopkins.py`, lines 47-55): while points remain,
restrict to indices whose score is below the ceiling 6, break if none,
pick one by weighted random choice, increment it.  Scores are a
`List Nat`, one entry per item in file order; `choice` is the draw
oracle: at the step with `rp` points remaining it selects position
`choice rp % valid.length` of the current valid-index list (so the pick
is always one of the valid indices, as with `np.random.choice`). -/

/-- The weighted random draw from a nonempty candidate list
(`np.random.choice(valid_indices, p=current_probs)` and the arg-max
`best = max(cands, key=...)`): the oracle value `k` selects element
`k % l.length`, so the result is always an element of the list and every
element is a possible outcome. -/
def pick {α : Type} (k : Nat) (l : List α) (h : l ≠ []) : α :=
  l.get ⟨k % l.length, Nat.mod_lt _ (List.length_pos.mpr h)⟩

theorem pick_mem {α : Type} (k : Nat) (l : List α) (h : l ≠ []) :
    pick k l h ∈ l := List.get_mem _ _ _

/-- One run of the `while remaining_points > 0` loop, with
`remaining_points` as the recursion measure.  (The Python binds the
valid-index list and the chosen index to locals `valid_indices` and
`idx`; they are inlined here.) -/
def distributeLoop (choice : Nat → Nat) : Nat → List Nat → List Nat
  | 0, scores => scores
  | rp + 1, scores =>
    if h : (List.range scores.length).filter (fun i => scores.getD i 0 < 6) = [] then
      scores
    else
      distributeLoop choice rp
        (scores.set
          (pick (choice (rp + 1))
            ((List.range scores.length).filter (fun i => scores.getD i 0 < 6)) h)
          (scores.getD
            (pick (choice (rp + 1))
              ((List.range scores.length).filter (fun i => scores.getD i 0 < 6)) h)
            0 + 1))

/-- `generate_from_matrix(csv_path, target_score)`
(`generate_profiles_borentain.py`, lines 4-38).  The CSV only fixes the
number of items `n` and (with the softmax of the multivariate-normal
draw) the probability weights, which the `choice` oracle absorbs; the
scores start at `np.zeros(n_items)`. -/
def generate_from_matrix (choice : Nat → Nat) (n : Nat) (target_score : Nat) :
    List Nat :=
  distributeLoop choice target_score (List.replicate n 0)

/-- `FactorBasedMADRSGenerator.generate(target_score)`
(`generate_profiles_hopkins.py`, lines 23-57): ten fixed items, scores
start at 0, then the same distribution loop. -/
def factorBasedGenerate (choice : Nat → Nat) (target_score : Nat) :
    List Nat :=
  distributeLoop choice target_score (List.replicate 10 0)

/-- Clamp of the sampled continuous value:
`max(0, min(6, int(round(sampled))))` (`generate_profiles_hopkins_latent.py`,
line 116).  The oracle value `r : Int` stands for `int(round(sampled))`. -/
def clampScore (r : Int) : Nat := (min 6 (max 0 r)).toNat

/-- Step 3 of `generate_profile`: the initial discrete profile, one
clamped draw per item (lines 109-116).  `init i` is the oracle's
`int(round(sampled))` for item `i`. -/
def initScores (init : Fin 10 → Int) : Scores where
  reported_sadness := clampScore (init 0)
  apparent_sadness := clampScore (init 1)
  inner_tension := clampScore (init 2)
  reduced_sleep := clampScore (init 3)
  reduced_appetite := clampScore (init 4)
  concentration_difficulties := clampScore (init 5)
  lassitude := clampScore (init 6)
  inability_to_feel := clampScore (init 7)
  pessimistic_thoughts := clampScore (init 8)
  suicidal_thoughts := clampScore (init 9)

/-- Step 4 of `generate_profile`: the adjustment loop (lines 117-134),
`for _ in range(100)` with early `break` when the sum hits the target or
no candidate remains.  `fuel` counts the remaining iterations of the
`range(100)` loop.  `sel` is the oracle for `best`: the Python code picks
the arg-max of `continuous[k] - discrete[k]` (resp. its negation) over
the candidate list; since the continuous values are unconstrained real
draws, any candidate can be the arg-max, and the oracle picks candidate
number `sel fuel % cands.length`. -/
def adjustLoop (sel : Nat → Nat) (target : Nat) : Nat → Scores → Scores
  | 0, s => s
  | fuel + 1, s =>
    if s.total = target then s
    else if s.total < target then
      if h : (List.finRange 10).filter (fun i => s.get i < 6) = [] then s
      else
        adjustLoop sel target fuel
          (s.set (pick (sel (fuel + 1))
              ((List.finRange 10).filter (fun i => s.get i < 6)) h)
            (s.get (pick (sel (fuel + 1))
              ((List.finRange 10).filter (fun i => s.get i < 6)) h) + 1))
    else
      if h : (List.finRange 10).filter (fun i => 0 < s.get i) = [] then s
      else
        adjustLoop sel target fuel
          (s.set (pick (sel (fuel + 1))
              ((List.finRange 10).filter (fun i => 0 < s.get i)) h)
            (s.get (pick (sel (fuel + 1))
              ((List.finRange 10).filter (fun i => 0 < s.get i)) h) - 1))

/-- `HierarchicalMADRSGenerator.generate_profile(target_score)`
(`generate_profiles_hopkins_latent.py`, lines 90-140): the range guard
returning `None`, the clamped initial draws, the 100-iteration adjustment
loop, and the final clinical-rule pass.  Steps 1-2 (factor means and the
covariance-scaled latent draw) only shape the distribution of the draws
and are absorbed by the `init` oracle. -/
def generate_profile (init : Fin 10 → Int) (sel : Nat → Nat)
    (target_score : Int) : Option Scores :=
  if 0 ≤ target_score ∧ target_score ≤ 60 then
    some (apply_madrs_rules
      (adjustLoop sel target_score.toNat 100 (initScores init)))
  else
    none

/-! ### Helper lemmas about `Scores` -/

namespace Scores

theorem get_set (s : Scores) (i j : Fin 10) (v : Nat) :
    (s.set i v).get j = if i = j then v else s.get j := by
  fin_cases i <;> fin_cases j <;> simp [set, get]

theorem total_set_succ (s : Scores) (i : Fin 10) :
    (s.set i (s.get i + 1)).total = s.total + 1 := by
  fin_cases i <;> simp [set, get, total] <;> omega

theorem total_set_pred (s : Scores) (i : Fin 10) (h : 0 < s.get i) :
    (s.set i (s.get i - 1)).total + 1 = s.total := by
  fin_cases i <;> simp [set, get, total] at h ⊢ <;> omega

theorem total_le_of_inRange {s : Scores} (h : s.InRange) : s.total ≤ 60 := by
  have h0 := h 0; have h1 := h 1; have h2 := h 2; have h3 := h 3
  have h4 := h 4; have h5 := h 5; have h6 := h 6; have h7 := h 7
  have h8 := h 8; have h9 := h 9
  simp [get] at h0 h1 h2 h3 h4 h5 h6 h7 h8 h9
  simp only [total]; omega

theorem inRange_set {s : Scores} (h : s.InRange) {i : Fin 10} {v : Nat}
    (hv : v ≤ 6) : (s.set i v).InRange := by
  intro j
  rw [get_set]
  split
  · exact hv
  · exact h j

theorem total_eq_sixty_of_saturated {s : Scores} (h : ∀ i : Fin 10, s.get i = 6) :
    s.total = 60 := by
  have h0 := h 0; have h1 := h 1; have h2 := h 2; have h3 := h 3
  have h4 := h 4; have h5 := h 5; have h6 := h 6; have h7 := h 7
  have h8 := h 8; have h9 := h 9
  simp [get] at h0 h1 h2 h3 h4 h5 h6 h7 h8 h9
  simp only [total]; omega

theorem total_pos_exists {s : Scores} (h : 0 < s.total) :
    ∃ i : Fin 10, 0 < s.get i := by
  by_contra hc
  push_neg at hc
  have h0 := hc 0; have h1 := hc 1; have h2 := hc 2; have h3 := hc 3
  have h4 := hc 4; have h5 := hc 5; have h6 := hc 6; have h7 := hc 7
  have h8 := hc 8; have h9 := hc 9
  simp [get] at h0 h1 h2 h3 h4 h5 h6 h7 h8 h9
  simp only [total] at h; omega

end Scores

/-! ### Helper lemmas about the point-distribution loop -/

theorem listSum_set (v : Nat) :
    ∀ (l : List Nat) (i : Nat), i < l.length →
      (l.set i v).sum + l.getD i 0 = l.sum + v := by
  intro l
  induction l with
  | nil => intro i h; simp at h
  | cons a t ih =>
    intro i h
    cases i with
    | zero => simp [List.set]; omega
    | succ j =>
      have hj : j < t.length := by simpa using h
      have := ih j hj
      simp only [List.set, List.sum_cons, List.getD_cons_succ]
      omega

theorem distributeLoop_length (choice : Nat → Nat) :
    ∀ (fuel : Nat) (l : List Nat),
      (distributeLoop choice fuel l).length = l.length := by
  intro fuel
  induction fuel with
  | zero => intro l; simp [distributeLoop]
  | succ n ih =>
    intro l
    rw [distributeLoop]
    split
    · rfl
    · rw [ih, List.length_set]

theorem distributeLoop_le (choice : Nat → Nat) :
    ∀ (fuel : Nat) (l : List Nat), (∀ x ∈ l, x ≤ 6) →
      ∀ x ∈ distributeLoop choice fuel l, x ≤ 6 := by
  intro fuel
  induction fuel with
  | zero => intro l hl; simpa [distributeLoop] using hl
  | succ n ih =>
    intro l hl
    rw [distributeLoop]
    split
    · exact hl
    · rename_i hne
      apply ih
      intro x hx
      rcases List.mem_or_eq_of_mem_set hx with hmem | heq
      · exact hl x hmem
      · have hp : pick (choice (n + 1))
            ((List.range l.length).filter (fun i => l.getD i 0 < 6)) hne ∈
            (List.range l.length).filter (fun i => l.getD i 0 < 6) :=
          pick_mem _ _ _
        have := (List.mem_filter.mp hp).2
        simp only [decide_eq_true_eq] at this
        omega

theorem distributeLoop_sum (choice : Nat → Nat) :
    ∀ (fuel : Nat) (l : List Nat), (∀ x ∈ l, x ≤ 6) →
      (distributeLoop choice fuel l).sum = min (l.sum + fuel) (6 * l.length) := by
  intro fuel
  induction fuel with
  | zero =>
    intro l hl
    have : l.sum ≤ l.length • 6 := List.sum_le_card_nsmul l 6 hl
    simp only [smul_eq_mul] at this
    simp only [distributeLoop]
    omega
  | succ n ih =>
    intro l hl
    rw [distributeLoop]
    split
    · rename_i hnil
      rw [List.filter_eq_nil_iff] at hnil
      have hall : ∀ x ∈ l, x = 6 := by
        intro x hx
        rcases List.mem_iff_getElem.mp hx with ⟨i, hi, hxi⟩
        have h1 : ¬ (l.getD i 0 < 6) := by
          have := hnil i (List.mem_range.mpr hi)
          simp only [decide_eq_true_eq] at this
          exact this
        have h2 : l.getD i 0 = l[i] := List.getD_eq_getElem l 0 hi
        have h3 := hl x hx
        omega
      have hsum : l.sum = l.length • 6 := List.sum_eq_card_nsmul l 6 hall
      simp only [smul_eq_mul] at hsum
      omega
    · rename_i hne
      have hp : pick (choice (n + 1))
          ((List.range l.length).filter (fun i => l.getD i 0 < 6)) hne ∈
          (List.range l.length).filter (fun i => l.getD i 0 < 6) :=
        pick_mem _ _ _
      have hplt : l.getD (pick (choice (n + 1))
          ((List.range l.length).filter (fun i => l.getD i 0 < 6)) hne) 0 < 6 := by
        have := (List.mem_filter.mp hp).2
        simp only [decide_eq_true_eq] at this
        exact this
      have hpmem : pick (choice (n + 1))
          ((List.range l.length).filter (fun i => l.getD i 0 < 6)) hne <
          l.length :=
        List.mem_range.mp (List.mem_filter.mp hp).1
      set idx := pick (choice (n + 1))
        ((List.range l.length).filter (fun i => l.getD i 0 < 6)) hne with hidx
      have hset : ∀ x ∈ l.set idx (l.getD idx 0 + 1), x ≤ 6 := by
        intro x hx
        rcases List.mem_or_eq_of_mem_set hx with hmem | heq
        · exact hl x hmem
        · omega
      rw [ih _ hset]
      have hsum := listSum_set (l.getD idx 0 + 1) l idx hpmem
      rw [List.length_set]
      omega

/-! ### Helper lemmas about the adjustment loop -/

theorem filter_finRange_ne_nil {p : Fin 10 → Prop} [DecidablePred p]
    (i : Fin 10) (hi : p i) :
    (List.finRange 10).filter (fun j => p j) ≠ [] := by
  intro h
  rw [List.filter_eq_nil_iff] at h
  exact absurd hi (by simpa using h i (List.mem_finRange i))

theorem clampScore_le_six (r : Int) : clampScore r ≤ 6 :=
  Int.toNat_le.mpr (min_le_left _ _)

theorem initScores_inRange (init : Fin 10 → Int) : (initScores init).InRange := by
  intro i
  fin_cases i <;> exact clampScore_le_six _

theorem adjustLoop_total (sel : Nat → Nat) (target : Nat) (ht : target ≤ 60) :
    ∀ (fuel : Nat) (s : Scores), s.InRange →
      s.total ≤ target + fuel → target ≤ s.total + fuel →
      (adjustLoop sel target fuel s).total = target := by
  intro fuel
  induction fuel with
  | zero =>
    intro s _ h1 h2
    simp only [adjustLoop]
    omega
  | succ n ih =>
    intro s hs h1 h2
    by_cases heq : s.total = target
    · simp [adjustLoop, heq]
    · rw [adjustLoop, if_neg heq]
      by_cases hlt : s.total < target
      · rw [if_pos hlt]
        have hex : ∃ i : Fin 10, s.get i < 6 := by
          by_contra hc
          push_neg at hc
          have h60 : s.total = 60 :=
            Scores.total_eq_sixty_of_saturated fun i => le_antisymm (hs i) (hc i)
          omega
        obtain ⟨i0, hi0⟩ := hex
        have hne : ((List.finRange 10).filter (fun j => s.get j < 6)) ≠ [] :=
          filter_finRange_ne_nil i0 hi0
        rw [dif_neg hne]
        set i := pick (sel (n + 1))
          ((List.finRange 10).filter (fun j => s.get j < 6)) hne with hidef
        have hmem : i ∈ (List.finRange 10).filter (fun j => s.get j < 6) := by
          rw [hidef]; exact pick_mem _ _ _
        have hilt : s.get i < 6 := by
          have := (List.mem_filter.mp hmem).2
          simpa using this
        apply ih
        · exact Scores.inRange_set hs (by omega)
        · rw [Scores.total_set_succ]; omega
        · rw [Scores.total_set_succ]; omega
      · rw [if_neg hlt]
        have hgt : target < s.total := by omega
        have hex : ∃ i : Fin 10, 0 < s.get i :=
          Scores.total_pos_exists (by omega)
        obtain ⟨i0, hi0⟩ := hex
        have hne : ((List.finRange 10).filter (fun j => 0 < s.get j)) ≠ [] :=
          filter_finRange_ne_nil i0 hi0
        rw [dif_neg hne]
        set i := pick (sel (n + 1))
          ((List.finRange 10).filter (fun j => 0 < s.get j)) hne with hidef
        have hmem : i ∈ (List.finRange 10).filter (fun j => 0 < s.get j) := by
          rw [hidef]; exact pick_mem _ _ _
        have hipos : 0 < s.get i := by
          have := (List.mem_filter.mp hmem).2
          simpa using this
        have hstep := Scores.total_set_pred s i hipos
        apply ih
        · exact Scores.inRange_set hs (le_trans (Nat.sub_le _ _) (hs i))
        · omega
        · omega

/-! ### Helper lemmas about the clinical-rule pass -/

/-- Closed form of `_apply_madrs_rules`: each field of the output as an
expression in the input fields (the Anhedonia Link reads the original
`REPORTED_SADNESS` because the Core Mood Gate never writes it, and so
on). -/
theorem apply_madrs_rules_eq (s : Scores) :
    apply_madrs_rules s =
      { s with
        reported_sadness :=
          if 4 ≤ s.inability_to_feel ∧ s.reported_sadness < 2 then 3
          else s.reported_sadness,
        reduced_sleep :=
          if 4 ≤ s.inner_tension ∧ s.reduced_sleep = 0 then 2
          else s.reduced_sleep,
        pessimistic_thoughts :=
          if s.reported_sadness ≤ 1 ∧ 2 < s.pessimistic_thoughts then 2
          else s.pessimistic_thoughts,
        suicidal_thoughts :=
          if s.reported_sadness ≤ 1 ∧ 2 < s.suicidal_thoughts then 1
          else s.suicidal_thoughts } := by
  obtain ⟨a, b, c, d, e, f, g, h, p, u⟩ := s
  simp only [apply_madrs_rules, tensionSleepLink, anhedoniaLink, moodGate]
  split_ifs <;> simp_all [Scores.mk.injEq]

theorem apply_madrs_rules_clinicalOk (s : Scores) :
    clinicalRulesOk (apply_madrs_rules s) := by
  rw [apply_madrs_rules_eq]
  obtain ⟨a, b, c, d, e, f, g, h, p, u⟩ := s
  simp only [clinicalRulesOk]
  split_ifs <;> simp_all <;> omega

theorem apply_madrs_rules_inRange {s : Scores} (hs : s.InRange) :
    (apply_madrs_rules s).InRange := by
  intro i
  rw [apply_madrs_rules_eq]
  have h0 := hs 0; have h3 := hs 3; have h8 := hs 8; have h9 := hs 9
  have hi := hs i
  fin_cases i <;> simp [Scores.get] at h0 h3 h8 h9 hi ⊢ <;> (try split_ifs) <;> omega

theorem apply_madrs_rules_total {s : Scores} (hs : s.InRange) :
    (apply_madrs_rules s).total ≤ s.total + 5 ∧
      s.total ≤ (apply_madrs_rules s).total + 9 := by
  have h0 := hs 0; have h2 := hs 2; have h3 := hs 3; have h7 := hs 7
  have h8 := hs 8; have h9 := hs 9
  rw [apply_madrs_rules_eq]
  obtain ⟨a, b, c, d, e, f, g, h, p, u⟩ := s
  simp [Scores.get] at h0 h2 h3 h7 h8 h9
  simp only [Scores.total]
  split_ifs <;> simp_all <;> omega

theorem apply_madrs_rules_idem (s : Scores) :
    apply_madrs_rules (apply_madrs_rules s) = apply_madrs_rules s := by
  rw [apply_madrs_rules_eq s, apply_madrs_rules_eq]
  obtain ⟨a, b, c, d, e, f, g, h, p, u⟩ := s
  split_ifs <;> simp_all [Scores.mk.injEq]

/-- The Tension and Sleep Link commutes with the Core Mood Gate: they
read and write disjoint items. -/
theorem tensionSleep_moodGate_comm (s : Scores) :
    moodGate (tensionSleepLink s) = tensionSleepLink (moodGate s) := by
  obtain ⟨a, b, c, d, e, f, g, h, p, u⟩ := s
  simp only [moodGate, tensionSleepLink]
  split_ifs <;> simp_all [Scores.mk.injEq]

/-- The Tension and Sleep Link commutes with the Anhedonia Link: they
read and write disjoint items. -/
theorem tensionSleep_anhedonia_comm (s : Scores) :
    anhedoniaLink (tensionSleepLink s) = tensionSleepLink (anhedoniaLink s) := by
  obtain ⟨a, b, c, d, e, f, g, h, p, u⟩ := s
  simp only [anhedoniaLink, tensionSleepLink]
  split_ifs <;> simp_all [Scores.mk.injEq]

theorem adjustLoop_inRange (sel : Nat → Nat) (target : Nat) :
    ∀ (fuel : Nat) (s : Scores), s.InRange →
      (adjustLoop sel target fuel s).InRange := by
  intro fuel
  induction fuel with
  | zero => intro s hs; simpa [adjustLoop] using hs
  | succ n ih =>
    intro s hs
    rw [adjustLoop]
    split
    · exact hs
    · split
      · split
        · exact hs
        · rename_i hlt hne
          apply ih
          set i := pick (sel (n + 1))
            ((List.finRange 10).filter (fun j => s.get j < 6)) hne with hidef
          have hmem : i ∈ (List.finRange 10).filter (fun j => s.get j < 6) := by
            rw [hidef]; exact pick_mem _ _ _
          have hilt : s.get i < 6 := by
            have := (List.mem_filter.mp hmem).2
            simpa using this
          exact Scores.inRange_set hs (by omega)
      · split
        · exact hs
        · apply ih
          exact Scores.inRange_set hs (le_trans (Nat.sub_le _ _) (hs _))

/-! ## Claim theorems -/

/-- Concrete draw for the sum-drift counterexample: the clamped initial
profile has REPORTED_SADNESS = 1, PESSIMISTIC_THOUGHTS = 6 and
SUICIDAL_THOUGHTS = 6 with all other items 0, so the initial sum already
equals the target 13 and the adjustment loop exits at once. -/
def driftDraw : Fin 10 → Int := fun i =>
  if i = 0 then 1 else if i = 8 then 6 else if i = 9 then 6 else 0

/-- A profile on which the order of the Core Mood Gate and the Anhedonia
Link matters. -/
def orderCex : Scores := ⟨0, 0, 0, 0, 0, 0, 0, 4, 0, 6⟩

/-- A profile showing the mood gate writes 1 (not the cap 2) to
SUICIDAL_THOUGHTS. -/
def suicCex : Scores := ⟨0, 0, 0, 0, 0, 0, 0, 0, 0, 3⟩

/-- C1: for the correlation-matrix sampler (`generate_from_matrix`
instantiated with the ten-item MADRS matrix) and the flat factor-loading
sampler (`FactorBasedMADRSGenerator.generate`), for every non-negative
integer target score and every random draw the call returns a full
ten-item mapping whose scores sum to exactly `min(target_score, 60)`. -/
theorem samplers_sum_min_target_sixty (choice : Nat → Nat)
    (target_score : Nat) :
    (generate_from_matrix choice 10 target_score).length = 10 ∧
    (generate_from_matrix choice 10 target_score).sum = min target_score 60 ∧
    (factorBasedGenerate choice target_score).length = 10 ∧
    (factorBasedGenerate choice target_score).sum = min target_score 60 := by
  have hz : ∀ x ∈ List.replicate 10 (0 : Nat), x ≤ 6 := by
    intro x hx
    rw [List.eq_of_mem_replicate hx]
    omega
  have hsum := distributeLoop_sum choice target_score (List.replicate 10 0) hz
  have hlen := distributeLoop_length choice target_score (List.replicate 10 0)
  simp at hsum hlen
  refine ⟨?_, ?_, ?_, ?_⟩ <;>
    simp [generate_from_matrix, factorBasedGenerate, hsum, hlen, Nat.min_comm]

/-- C2: for the hierarchical sampler, for every target score in `[0,60]`
and every random draw (initial-draw oracle `init`, arg-max oracle `sel`),
the sum of the ten discrete scores when the adjustment loop finishes —
before the clinical-rule pass — equals the target exactly. -/
theorem hierarchical_adjust_sum_exact (init : Fin 10 → Int)
    (sel : Nat → Nat) (target_score : Nat) (h : target_score ≤ 60) :
    (adjustLoop sel target_score 100 (initScores init)).total = target_score := by
  have hb := Scores.total_le_of_inRange (initScores_inRange init)
  exact adjustLoop_total sel target_score h 100 (initScores init)
    (initScores_inRange init) (by omega) (by omega)

theorem hierarchical_adjust_sum_exact_witness :
    (30 : Nat) ≤ 60 ∧
    (adjustLoop (fun _ => 0) 30 100 (initScores (fun _ => 0))).total = 30 :=
  ⟨by decide, hierarchical_adjust_sum_exact (fun _ => 0) (fun _ => 0) 30 (by decide)⟩

/-- C3: for every generator variant, every valid target and every random
draw, every score is an integer in `[0,6]` (lower bound by the `Nat`
type), and the bound is preserved at every write: the clamped
discretization, every state the adjustment loop produces, the
clinical-rule pass, and the returned mappings of all three generators. -/
theorem scores_always_in_range :
    (∀ init : Fin 10 → Int, (initScores init).InRange) ∧
    (∀ (sel : Nat → Nat) (target fuel : Nat) (s : Scores), s.InRange →
      (adjustLoop sel target fuel s).InRange) ∧
    (∀ s : Scores, s.InRange → (apply_madrs_rules s).InRange) ∧
    (∀ (init : Fin 10 → Int) (sel : Nat → Nat) (t : Int) (p : Scores),
      generate_profile init sel t = some p → p.InRange) ∧
    (∀ (choice : Nat → Nat) (n t : Nat),
      ∀ x ∈ generate_from_matrix choice n t, x ≤ 6) ∧
    (∀ (choice : Nat → Nat) (t : Nat),
      ∀ x ∈ factorBasedGenerate choice t, x ≤ 6) := by
  have hz : ∀ n, ∀ x ∈ List.replicate n (0 : Nat), x ≤ 6 := by
    intro n x hx
    rw [List.eq_of_mem_replicate hx]
    omega
  refine ⟨initScores_inRange, adjustLoop_inRange, ?_, ?_, ?_, ?_⟩
  · intro s hs
    exact apply_madrs_rules_inRange hs
  · intro init sel t p hp
    simp only [generate_profile] at hp
    split at hp
    · injection hp with hp
      subst hp
      exact apply_madrs_rules_inRange
        (adjustLoop_inRange sel _ 100 _ (initScores_inRange init))
    · exact absurd hp (by simp)
  · intro choice n t
    exact distributeLoop_le choice t (List.replicate n 0) (hz n)
  · intro choice t
    exact distributeLoop_le choice t (List.replicate 10 0) (hz 10)

theorem scores_always_in_range_witness :
    (initScores (fun _ => 9)).InRange ∧
    (adjustLoop (fun _ => 1) 20 100 (initScores (fun _ => 9))).InRange ∧
    (apply_madrs_rules (initScores (fun _ => 9))).InRange ∧
    Scores.InRange ⟨6, 6, 1, 0, 0, 0, 0, 0, 0, 0⟩ ∧
    (6 : Nat) ≤ 6 :=
  ⟨scores_always_in_range.1 _,
   scores_always_in_range.2.1 _ _ _ _ (scores_always_in_range.1 _),
   scores_always_in_range.2.2.1 _ (scores_always_in_range.1 _),
   scores_always_in_range.2.2.2.1 (fun _ => 0) (fun _ => 0) 13 _ (by decide),
   scores_always_in_range.2.2.2.2.1 (fun _ => 0) 10 13 6 (by decide)⟩

/-- C4: every profile returned by the hierarchical sampler's
`generate_profile` satisfies the three clinical invariants of
`check_clinical_rules`: mood gate (reported sadness ≤ 1 forces suicidal
and pessimistic thoughts ≤ 2), anhedonia link (inability to feel ≥ 4
forces reported sadness ≥ 2) and tension-sleep link (inner tension ≥ 4
forces reduced sleep > 0). -/
theorem hierarchical_clinical_invariants (init : Fin 10 → Int)
    (sel : Nat → Nat) (t : Int) (p : Scores)
    (hp : generate_profile init sel t = some p) : clinicalRulesOk p := by
  simp only [generate_profile] at hp
  split at hp
  · injection hp with hp
    subst hp
    exact apply_madrs_rules_clinicalOk _
  · exact absurd hp (by simp)

theorem hierarchical_clinical_invariants_witness :
    clinicalRulesOk ⟨6, 6, 1, 0, 0, 0, 0, 0, 0, 0⟩ :=
  hierarchical_clinical_invariants (fun _ => 0) (fun _ => 0) 13 _ (by decide)

/-- C5: the hierarchical sampler fails (returns `None`) exactly when the
target score is outside `[0,60]`; in particular targets `-5` and `61`
fail, and every target in `[0,60]` yields a profile. -/
theorem hierarchical_fail_iff_invalid (init : Fin 10 → Int)
    (sel : Nat → Nat) (t : Int) :
    (generate_profile init sel t = none ↔ t < 0 ∨ 60 < t) ∧
    generate_profile init sel (-5) = none ∧
    generate_profile init sel 61 = none ∧
    (0 ≤ t → t ≤ 60 → ∃ p, generate_profile init sel t = some p) := by
  refine ⟨?_, ?_, ?_, ?_⟩
  · simp only [generate_profile]
    split_ifs with h
    · simp
      omega
    · simp
      omega
  · simp [generate_profile]
  · simp [generate_profile]
  · intro h1 h2
    exact ⟨_, by rw [generate_profile, if_pos ⟨h1, h2⟩]⟩

theorem hierarchical_fail_iff_invalid_witness :
    ∃ p, generate_profile (fun _ => 0) (fun _ => 0) 30 = some p :=
  (hierarchical_fail_iff_invalid (fun _ => 0) (fun _ => 0) 30).2.2.2
    (by decide) (by decide)

/-- C6 (counterexample): with the draw `driftDraw` and target 13 the
adjustment loop exits with sum 13, but the clinical pass lowers
SUICIDAL_THOUGHTS from 6 to 1 and PESSIMISTIC_THOUGHTS from 6 to 2, so
the returned sum 4 differs from the target by 9 > 3. -/
theorem hierarchical_drift_counterexample :
    (generate_profile driftDraw (fun _ => 0) 13).map
        (fun p => ((p.total : Int) - 13).natAbs) = some 9 ∧
    ¬ ((9 : Nat) ≤ 3) := by decide

/-- C6 (amended): for every target in `[0,60]` and every draw, the sum of
the returned profile lies within 9 of the target (the tightest uniform
bound: the mood gate can remove up to 5 + 4 points). -/
theorem hierarchical_drift_le_nine (init : Fin 10 → Int) (sel : Nat → Nat)
    (t : Int) (p : Scores) (hp : generate_profile init sel t = some p) :
    ((p.total : Int) - t).natAbs ≤ 9 := by
  simp only [generate_profile] at hp
  split at hp
  · rename_i h
    injection hp with hp
    subst hp
    have hq : (adjustLoop sel t.toNat 100 (initScores init)).InRange :=
      adjustLoop_inRange sel _ 100 _ (initScores_inRange init)
    have hsum : (adjustLoop sel t.toNat 100 (initScores init)).total = t.toNat := by
      have hb := Scores.total_le_of_inRange (initScores_inRange init)
      exact adjustLoop_total sel t.toNat (by omega) 100 _
        (initScores_inRange init) (by omega) (by omega)
    have hd := apply_madrs_rules_total hq
    have ht : ((t.toNat : Nat) : Int) = t := Int.toNat_of_nonneg h.1
    omega
  · exact absurd hp (by simp)

theorem hierarchical_drift_le_nine_witness :
    (((Scores.total ⟨1, 0, 0, 0, 0, 0, 0, 0, 2, 1⟩ : Nat) : Int) - 13).natAbs ≤ 9 :=
  hierarchical_drift_le_nine driftDraw (fun _ => 0) 13 _ (by decide)

/-- C7 (counterexample): on the in-range profile `suicCex` with reported
sadness 0 and suicidal thoughts 3, the clinical pass writes suicidal
thoughts 1, not the claimed cap value `min(3, 2) = 2`. -/
theorem mood_gate_cap_counterexample :
    suicCex.InRange ∧ suicCex.reported_sadness ≤ 1 ∧
    (apply_madrs_rules suicCex).suicidal_thoughts ≠
      min suicCex.suicidal_thoughts 2 := by decide

/-- C7 (amended): in the clinical pass, when reported sadness ≤ 1,
pessimistic thoughts becomes `min(old, 2)` but suicidal thoughts is set
to 1 (not 2) when it exceeds 2; neither is ever raised. -/
theorem mood_gate_writes (s : Scores) (hs : s.InRange)
    (hsad : s.reported_sadness ≤ 1) :
    (apply_madrs_rules s).suicidal_thoughts =
      (if 2 < s.suicidal_thoughts then 1 else s.suicidal_thoughts) ∧
    (apply_madrs_rules s).pessimistic_thoughts = min s.pessimistic_thoughts 2 ∧
    (apply_madrs_rules s).suicidal_thoughts ≤ s.suicidal_thoughts ∧
    (apply_madrs_rules s).pessimistic_thoughts ≤ s.pessimistic_thoughts := by
  rw [apply_madrs_rules_eq]
  obtain ⟨a, b, c, d, e, f, g, h, p, u⟩ := s
  simp only at hsad ⊢
  split_ifs <;> simp_all <;> omega

theorem mood_gate_writes_witness :
    (apply_madrs_rules suicCex).suicidal_thoughts =
      (if 2 < suicCex.suicidal_thoughts then 1 else suicCex.suicidal_thoughts) ∧
    (apply_madrs_rules suicCex).pessimistic_thoughts =
      min suicCex.pessimistic_thoughts 2 ∧
    (apply_madrs_rules suicCex).suicidal_thoughts ≤ suicCex.suicidal_thoughts ∧
    (apply_madrs_rules suicCex).pessimistic_thoughts ≤
      suicCex.pessimistic_thoughts :=
  mood_gate_writes suicCex (by decide) (by decide)

/-- C8 (counterexample): on the in-range profile `orderCex` (reported
sadness 0, inability to feel 4, suicidal thoughts 6), running the
Anhedonia Link before the Core Mood Gate raises sadness to 3 first, so
the gate no longer fires and suicidal thoughts stays 6, unlike the
implemented order, which lowers it to 1: the six orders do not agree. -/
theorem clinical_rules_order_counterexample :
    orderCex.InRange ∧
    tensionSleepLink (moodGate (anhedoniaLink orderCex)) ≠
      apply_madrs_rules orderCex := by decide

/-- C8 (amended): the Tension and Sleep Link commutes with both other
rules, so the three orders that keep the Core Mood Gate before the
Anhedonia Link all produce the implemented result; orders that run the
Anhedonia Link first can differ (see the counterexample). -/
theorem clinical_rules_order_partial (s : Scores) (_hs : s.InRange) :
    anhedoniaLink (tensionSleepLink (moodGate s)) = apply_madrs_rules s ∧
    anhedoniaLink (moodGate (tensionSleepLink s)) = apply_madrs_rules s := by
  constructor
  · exact tensionSleep_anhedonia_comm (moodGate s)
  · rw [tensionSleep_moodGate_comm]
    exact tensionSleep_anhedonia_comm (moodGate s)

theorem clinical_rules_order_partial_witness :
    anhedoniaLink (tensionSleepLink (moodGate orderCex)) =
      apply_madrs_rules orderCex ∧
    anhedoniaLink (moodGate (tensionSleepLink orderCex)) =
      apply_madrs_rules orderCex :=
  clinical_rules_order_partial orderCex (by decide)

/-- C9: the hierarchical sampler is deterministic — two invocations of
`generate_profile` with the same target score and the same
pseudorandom-stream state (the same draw oracles at the same position)
return identical profiles. -/
theorem hierarchical_deterministic (init₁ init₂ : Fin 10 → Int)
    (sel₁ sel₂ : Nat → Nat) (t₁ t₂ : Int)
    (hinit : init₁ = init₂) (hsel : sel₁ = sel₂) (ht : t₁ = t₂) :
    generate_profile init₁ sel₁ t₁ = generate_profile init₂ sel₂ t₂ := by
  rw [hinit, hsel, ht]

theorem hierarchical_deterministic_witness :
    generate_profile (fun _ => 0) (fun _ => 0) 13 =
      generate_profile (fun _ => 0) (fun _ => 0) 13 :=
  hierarchical_deterministic _ _ _ _ _ _ rfl rfl rfl

/-- C10: the clinical-rule pass is idempotent on profiles with all ten
items in `[0,6]`: applying `_apply_madrs_rules` twice equals applying it
once. -/
theorem clinical_pass_idempotent (s : Scores) (_hs : s.InRange) :
    apply_madrs_rules (apply_madrs_rules s) = apply_madrs_rules s :=
  apply_madrs_rules_idem s

theorem clinical_pass_idempotent_witness :
    apply_madrs_rules (apply_madrs_rules ⟨1, 1, 5, 0, 0, 0, 2, 6, 4, 5⟩) =
      apply_madrs_rules ⟨1, 1, 5, 0, 0, 0, 2, 6, 4, 5⟩ :=
  clinical_pass_idempotent ⟨1, 1, 5, 0, 0, 0, 2, 6, 4, 5⟩ (by decide)
